import Mathlib

/-!
Verification of the firmware-update orchestration script
(unit-tests/test-fw-updater.py).

The script's pure logic is embedded shallowly, with Python strings
modelled as their character sequences (`List Char`):

* `splitOnP`, `pyTokens`, `pyIntList`, `stripFirstLast`, `pyIn` model the
  Python string primitives the script uses (`str.split('.')`,
  `str.split()`, `int`, slicing `[1:-1]`, the `in` containment test);
* `get_bundled_fw_version` models the manifest scan, with `.indexError`
  marking the places where the Python code would raise `IndexError`;
* `has_newer_fw` models the version comparison, with `.formatMismatch`
  marking the `sys.exit(1)` on component-count mismatch and `.valueError`
  marking a `ValueError` from `int()`;
* `maskSearch` models `re.search` for the only pattern shape the script
  builds, namely `(^|/)body$` where `body` contains no regex
  metacharacters other than `.` (which matches any character except a
  newline); `find_last` models the loop that overwrites a single variable
  with each match;
* `orchestrate` models the top-level flow of the script over an abstract
  environment (manifest presence and content, the relative paths the
  directory walk yields in traversal order, the device count and the
  device's reported version and product line), with `Outcome` recording
  how the process ends.
-/

namespace FwUpdater

/-- Split a character list at every character satisfying `p`, keeping
empty pieces (so the result always has at least one piece). With
`p c = (c = sep)` this is Python `s.split(sep)` for a one-character
separator. -/
def splitOnP (p : Char → Bool) : List Char → List (List Char)
  | [] => [[]]
  | c :: cs =>
    let r := splitOnP p cs
    if p c then [] :: r
    else
      match r with
      | [] => [[c]]
      | h :: t => (c :: h) :: t

/-- Python `str.split()` with no arguments: the maximal whitespace-free
groups, i.e. split on every whitespace character and drop the empty
pieces. -/
def pyTokens (l : List Char) : List (List Char) :=
  (splitOnP Char.isWhitespace l).filter (fun w => w ≠ [])

/-- Accumulator loop for parsing a run of decimal digits. -/
def parseNatGo (acc : Nat) : List Char → Option Nat
  | [] => some acc
  | c :: cs =>
    if c.isDigit then parseNatGo (acc * 10 + (c.toNat - 48)) cs
    else none

/-- Python `int(s)` for the literal forms relevant here: an optional
sign followed by a nonempty run of decimal digits; anything else is a
`ValueError` (`none`). -/
def pyIntList : List Char → Option Int
  | [] => none
  | '-' :: cs =>
    if cs = [] then none else (parseNatGo 0 cs).map (fun n => -(n : Int))
  | '+' :: cs =>
    if cs = [] then none else (parseNatGo 0 cs).map (fun n => (n : Int))
  | cs => (parseNatGo 0 cs).map (fun n => (n : Int))

/-- Python `s[1:-1]`: drop the first and the last character. -/
def stripFirstLast (l : List Char) : List Char :=
  (l.drop 1).dropLast

/-- Whether the first list is a prefix of the second. -/
def listStartsWith : List Char → List Char → Bool
  | [], _ => true
  | _ :: _, [] => false
  | p :: ps, c :: cs => p = c && listStartsWith ps cs

/-- Whether the first list occurs contiguously somewhere in the second:
Python `needle in hay` on strings. -/
def pyIn (n : List Char) : List Char → Bool
  | [] => listStartsWith n []
  | c :: cs => listStartsWith n (c :: cs) || pyIn n cs

/-- Python `product_line[0:2]`. -/
def take2 (s : String) : List Char :=
  s.toList.take 2

/-- The component lists of a dotted version string:
Python `fw.split('.')`. -/
def verComponents (s : String) : List (List Char) :=
  splitOnP (fun c => c = '.') s.toList

/-- The lines of a text file's content. -/
def fileLines (content : String) : List (List Char) :=
  splitOnP (fun c => c = '\n') content.toList

/-- Result of `get_bundled_fw_version`: a returned version string, the
`None` fallthrough, or an uncaught `IndexError` from `words[1]` /
`words[2]`. -/
inductive ManifestResult where
  | found (v : List Char)
  | notFound
  | indexError
  deriving DecidableEq

/-- The literal `#define` that a manifest line's first token is compared
against. -/
def defineTok : List Char := "#define".toList

/-- The manifest scan loop of `get_bundled_fw_version`, over the list of
lines: skip a line whose token list is empty or does not start with the
literal `#define`; otherwise access `words[1]` (IndexError if absent),
test containment of the family prefix, and on containment return
`words[2][1:-1]` (IndexError if `words[2]` is absent). -/
def get_bundled_fw_version_go (fam : List Char) :
    List (List Char) → ManifestResult
  | [] => .notFound
  | line :: rest =>
    match pyTokens line with
    | [] => get_bundled_fw_version_go fam rest
    | w0 :: ws =>
      if w0 ≠ defineTok then get_bundled_fw_version_go fam rest
      else
        match ws with
        | [] => .indexError
        | w1 :: ws2 =>
          if pyIn fam w1 then
            match ws2 with
            | [] => .indexError
            | w2 :: _ => .found (stripFirstLast w2)
          else get_bundled_fw_version_go fam rest

/-- `get_bundled_fw_version(product_line)` reading the manifest file
whose content is `content`: scans the content's lines with
`product_line[0:2]` as the family prefix. -/
def get_bundled_fw_version (content : String) (product_line : String) :
    ManifestResult :=
  get_bundled_fw_version_go (take2 product_line) (fileLines content)

/-- Result of `has_newer_fw`: a boolean return, the `sys.exit(1)` on a
component-count mismatch, or an uncaught `ValueError` from `int()`. -/
inductive FwCmpResult where
  | res (b : Bool)
  | formatMismatch
  | valueError
  deriving DecidableEq

/-- The comparison loop of `has_newer_fw`:
`for curr, bundled in zip(...)`, returning `True` at the first pair with
`int(bundled) > int(curr)`, `False` at the first pair with
`int(bundled) < int(curr)`, and `False` when the zip is exhausted. -/
def cmp_digits : List (List Char) → List (List Char) → FwCmpResult
  | c :: cs, b :: bs =>
    match pyIntList b, pyIntList c with
    | some bi, some ci =>
      if bi > ci then .res true
      else if bi < ci then .res false
      else cmp_digits cs bs
    | _, _ => .valueError
  | _, _ => .res false

/-- `has_newer_fw(current_fw, bundled_fw)`: split both on `.`, exit
fatally when the component counts differ, otherwise run the comparison
loop. -/
def has_newer_fw (current_fw bundled_fw : String) : FwCmpResult :=
  let c := verComponents current_fw
  let b := verComponents bundled_fw
  if c.length ≠ b.length then .formatMismatch
  else cmp_digits c b

/-- Parse every component with `pyIntList`, failing if any fails. -/
def parseAll : List (List Char) → Option (List Int)
  | [] => some []
  | s :: l =>
    match pyIntList s, parseAll l with
    | some i, some is => some (i :: is)
    | _, _ => none

/-- Spec-side comparator, following the spec's words: compare components
pairwise left-to-right; at the first pair that differ, the candidate is
newer exactly when its component is the greater one; if all components
are equal, the candidate is not newer. -/
def spec_is_newer : List Int → List Int → Bool
  | c :: cs, b :: bs => if b ≠ c then decide (c < b) else spec_is_newer cs bs
  | _, _ => false

/-- One pattern character of a mask body against one subject character:
`.` matches any character except a newline, every other character only
itself. -/
def charMatch (p c : Char) : Bool :=
  (p = '.' && c ≠ '\n') || p = c

/-- Match a whole mask body against a whole character list. -/
def bodyMatch : List Char → List Char → Bool
  | [], [] => true
  | p :: ps, c :: cs => charMatch p c && bodyMatch ps cs
  | _, _ => false

/-- Match `body$` against the rest `t` of the subject: when the body is
exhausted, the regex `$` accepts the very end of the string and also the
position just before a single trailing newline; before that, each body
character must match one subject character. -/
def bodyMatchDollar : List Char → List Char → Bool
  | [], t => t = [] || t = ['\n']
  | _ :: _, [] => false
  | p :: ps, c :: cs => charMatch p c && bodyMatchDollar ps cs

/-- Search for a match of `(^|/)body$` starting strictly after some `/`
of the subject. -/
def maskSearchAux (body : List Char) : List Char → Bool
  | [] => false
  | c :: cs => (c = '/' && bodyMatchDollar body cs) || maskSearchAux body cs

/-- Python `re.search('(^|/)' + body + '$', s)` for a body whose only
regex metacharacter is `.`: the body (closed by `$`, which matches at the
end of the string or just before a trailing newline) must match a suffix
of `s` that is the whole string or starts right after a `/`. -/
def maskSearch (body : List Char) (s : List Char) : Bool :=
  bodyMatchDollar body s || maskSearchAux body s

/-- `find(dir, mask)`: the relative paths, in traversal order, whose
string matches the mask `(^|/)body$`. Directory traversal itself is
abstracted as the list `files` of relative paths it yields. -/
def find (files : List String) (body : String) : List String :=
  files.filter (fun f => maskSearch body.toList f.toList)

/-- The script's `for file in find(...): x = file` idiom: each match
overwrites the variable, so the last match in traversal order is kept;
`none` when there is no match. -/
def find_last (files : List String) (body : String) : Option String :=
  files.foldl
    (fun acc f => if maskSearch body.toList f.toList then some f else acc)
    none

/-- The final component of a relative path: everything after the last
`/` (the whole path when it has no `/`). -/
def lastComponent (s : String) : List Char :=
  (s.toList.reverse.takeWhile (fun c => c ≠ '/')).reverse

/-- Declarative anchored-match property, following the spec's words about
anchoring: some suffix of the path beginning at the start of the string or
immediately after a `/` is matched by the mask body, optionally followed
by a single trailing newline (which the regex `$` tolerates). -/
def MatchesAt (body s : List Char) : Prop :=
  ∃ pre t nl, s = pre ++ t ++ nl ∧ (pre = [] ∨ ∃ q, pre = q ++ ['/']) ∧
    (nl = [] ∨ nl = ['\n']) ∧ bodyMatch body t = true

/-- The fixed mask body of the updater-executable search. -/
def updater_mask_body : String := "rs-fw-update.exe"

/-- `image_name = product_line[0:2] + "XX_FW_Image-" + bundled_fw_version
+ ".bin"`. -/
def image_name (product_line : String) (bundled_fw_version : List Char) :
    String :=
  String.mk (take2 product_line ++ "XX_FW_Image-".toList ++
    bundled_fw_version ++ ".bin".toList)

/-- The abstract environment the script runs against: whether the
manifest file exists and its content, the relative paths the directory
walk yields in traversal order, the number of devices enumerated, and
the single device's reported firmware version and product line. -/
structure Env where
  manifest_exists : Bool
  manifest_content : String
  files : List String
  device_count : Nat
  current_fw_version : String
  product_line : String

/-- How a run of the script ends: `sys.exit(0)`, `sys.exit(1)`, reaching
the updater invocation with the resolved executable and image, or an
uncaught Python exception. -/
inductive Outcome where
  | exit0
  | exit1
  | launched (exe img : String)
  | pyError
  deriving DecidableEq

/-- The top-level flow of the script: manifest presence check, updater
search, device-count check, bundled-version lookup (with Python's falsy
test `if not bundled_fw_version`, which also treats an empty version
string as missing), version comparison, then image search. -/
def orchestrate (e : Env) : Outcome :=
  if e.manifest_exists = false then .exit1
  else
    match find_last e.files updater_mask_body with
    | none => .exit1
    | some exe =>
      if e.device_count ≠ 1 then .exit1
      else
        match get_bundled_fw_version e.manifest_content e.product_line with
        | .indexError => .pyError
        | .notFound => .exit1
        | .found v =>
          if v = [] then .exit1
          else
            match has_newer_fw e.current_fw_version (String.mk v) with
            | .valueError => .pyError
            | .formatMismatch => .exit1
            | .res false => .exit0
            | .res true =>
              match find_last e.files (image_name e.product_line v) with
              | none => .exit1
              | some img => .launched exe img

/-- Spec-side manifest lookup, following the spec's words: the version
comes from the first line whose first whitespace token is the literal
`#define` and whose second token contains the family prefix; the version
is that line's third token with its first and last characters removed;
every other line is skipped; with no qualifying line the lookup yields
nothing. -/
def spec_lookup (fam : List Char) : List (List Char) → Option (List Char)
  | [] => none
  | line :: rest =>
    match pyTokens line with
    | w0 :: w1 :: w2 :: _ =>
      if w0 = defineTok then
        if pyIn fam w1 then some (stripFirstLast w2)
        else spec_lookup fam rest
      else spec_lookup fam rest
    | _ => spec_lookup fam rest

/-- A manifest line on which the scan cannot raise an IndexError: if its
first token is `#define` then it has a second token, and also a third
one when the second contains the family prefix. -/
def wellFormedLine (fam : List Char) (line : List Char) : Bool :=
  match pyTokens line with
  | [w0] => decide (w0 ≠ defineTok)
  | [w0, w1] => decide (w0 ≠ defineTok) || !(pyIn fam w1)
  | _ => true

/-- A run in which the device is already up to date. -/
def env_noop : Env :=
  ⟨true, "#define D4XX_FW_VERSION \"5.13.0\"", ["rs-fw-update.exe"], 1,
    "5.13.0", "D400"⟩

/-- A run in which the manifest file is absent. -/
def env_no_manifest : Env :=
  ⟨false, "", ["rs-fw-update.exe"], 1, "5.13.0", "D400"⟩

/-- A run in which no updater executable is found. -/
def env_no_updater : Env :=
  ⟨true, "#define D4XX_FW_VERSION \"5.13.0\"", [], 1, "5.13.0", "D400"⟩

/-- A run in which two devices are enumerated. -/
def env_two_devices : Env :=
  ⟨true, "#define D4XX_FW_VERSION \"5.13.0\"", ["rs-fw-update.exe"], 2,
    "5.13.0", "D400"⟩

/-- A run in which the manifest has no entry for the device's family. -/
def env_no_entry : Env :=
  ⟨true, "#define L5XX_FW_VERSION \"1.5.8.1\"", ["rs-fw-update.exe"], 1,
    "5.13.0", "D400"⟩

/-- A run in which the device's version has fewer components than the
bundled one. -/
def env_mismatch : Env :=
  ⟨true, "#define D4XX_FW_VERSION \"5.13.0\"", ["rs-fw-update.exe"], 1,
    "5.12", "D400"⟩

/-- A run in which an update is needed but no image file is found. -/
def env_no_image : Env :=
  ⟨true, "#define D4XX_FW_VERSION \"5.13.0\"", ["rs-fw-update.exe"], 1,
    "5.12.1", "D400"⟩

/-- A run in which an update is needed and both files are found. -/
def env_update : Env :=
  ⟨true, "#define D4XX_FW_VERSION \"5.13.0\"",
    ["tools/rs-fw-update.exe", "common/fw/D4XX_FW_Image-5.13.0.bin"], 1,
    "5.12.1", "D400"⟩

/-- A demonstration manifest: a comment line that contains the family
prefix and a quoted version, an entry for another macro, the entry for
the family, and a second entry for the same family. -/
def manifest_demo : String :=
  "// D4 \"9.9.9\"\n#define OTHER_MACRO 1\n#define D4XX_FW_VERSION \"5.13.0\"\n#define D4XX_FW_VERSION \"9.9.9\""

theorem parseAll_cons_inv {s : List Char} {l : List (List Char)}
    {is' : List Int} (h : parseAll (s :: l) = some is') :
    ∃ i is, pyIntList s = some i ∧ parseAll l = some is ∧ is' = i :: is := by
  unfold parseAll at h
  cases hs : pyIntList s with
  | none => rw [hs] at h; exact absurd h (by simp)
  | some i =>
    cases hl : parseAll l with
    | none => rw [hs, hl] at h; exact absurd h (by simp)
    | some is =>
      rw [hs, hl] at h
      simp only [Option.some.injEq] at h
      exact ⟨i, is, rfl, rfl, h.symm⟩

theorem cmp_digits_eq_spec :
    ∀ (cs bs : List (List Char)) (cis bis : List Int),
      parseAll cs = some cis → parseAll bs = some bis →
      cmp_digits cs bs = .res (spec_is_newer cis bis) := by
  intro cs
  induction cs with
  | nil =>
    intro bs cis bis hc _hb
    simp only [parseAll, Option.some.injEq] at hc
    subst hc
    cases bs with
    | nil => simp [cmp_digits, spec_is_newer]
    | cons b bs => simp [cmp_digits, spec_is_newer]
  | cons c cs ih =>
    intro bs cis bis hc hb
    obtain ⟨ci, cis', hci, hcs, rfl⟩ := parseAll_cons_inv hc
    cases bs with
    | nil =>
      simp only [parseAll, Option.some.injEq] at hb
      subst hb
      simp [cmp_digits, spec_is_newer]
    | cons b bs =>
      obtain ⟨bi, bis', hbi, hbs, rfl⟩ := parseAll_cons_inv hb
      simp only [cmp_digits, hci, hbi, spec_is_newer]
      rcases lt_trichotomy ci bi with hlt | heq | hgt
      · simp [hlt, hlt.ne, hlt.ne', not_lt.mpr hlt.le]
      · subst heq
        simp [ih bs cis' bis' hcs hbs]
      · simp [hgt, hgt.ne, hgt.ne', not_lt.mpr hgt.le]

theorem spec_is_newer_self : ∀ is : List Int, spec_is_newer is is = false := by
  intro is
  induction is with
  | nil => simp [spec_is_newer]
  | cons i is ih => simp [spec_is_newer, ih]

/-- C1: for dotted version strings with the same number of components
whose components all parse as integers, `has_newer_fw` returns exactly
the spec-side comparison: true iff at the first differing component pair
the bundled component is the greater integer, false when all pairs are
equal; comparison is numeric, so `has_newer_fw "1.20.0" "1.3.0"` is
false and `has_newer_fw "1.3.0" "1.20.0"` is true. -/
theorem c1_version_comparison_numeric :
    (∀ (current bundled : String) (cis bis : List Int),
        (verComponents current).length = (verComponents bundled).length →
        parseAll (verComponents current) = some cis →
        parseAll (verComponents bundled) = some bis →
        has_newer_fw current bundled = .res (spec_is_newer cis bis)) ∧
    has_newer_fw "1.20.0" "1.3.0" = .res false ∧
    has_newer_fw "1.3.0" "1.20.0" = .res true := by
  refine ⟨?_, by decide, by decide⟩
  intro current bundled cis bis hlen hc hb
  have hred : has_newer_fw current bundled =
      cmp_digits (verComponents current) (verComponents bundled) := by
    simp [has_newer_fw, hlen]
  rw [hred]
  exact cmp_digits_eq_spec _ _ _ _ hc hb

/-- Witness for C1 at current `5.12.1`, bundled `5.13.0`. -/
theorem c1_witness :
    (verComponents "5.12.1").length = (verComponents "5.13.0").length ∧
    parseAll (verComponents "5.12.1") = some [5, 12, 1] ∧
    parseAll (verComponents "5.13.0") = some [5, 13, 0] ∧
    has_newer_fw "5.12.1" "5.13.0" = .res (spec_is_newer [5, 12, 1] [5, 13, 0]) :=
  ⟨by decide, by decide, by decide,
    c1_version_comparison_numeric.1 "5.12.1" "5.13.0" [5, 12, 1] [5, 13, 0]
      (by decide) (by decide) (by decide)⟩

/-- C2: for version strings whose component counts differ, `has_newer_fw`
takes the fatal `sys.exit(1)` branch (modelled by `.formatMismatch`)
before parsing any component, so no boolean comparison result is
returned, regardless of the components' values. -/
theorem c2_component_count_mismatch (current bundled : String)
    (h : (verComponents current).length ≠ (verComponents bundled).length) :
    has_newer_fw current bundled = .formatMismatch ∧
    ∀ b : Bool, has_newer_fw current bundled ≠ .res b := by
  have hfm : has_newer_fw current bundled = .formatMismatch := by
    simp [has_newer_fw, h]
  exact ⟨hfm, fun b hb => by rw [hfm] at hb; exact absurd hb (by simp)⟩

/-- Witness for C2 at `1.2` versus `1.2.0`. -/
theorem c2_witness :
    (verComponents "1.2").length ≠ (verComponents "1.2.0").length ∧
    has_newer_fw "1.2" "1.2.0" = .formatMismatch :=
  ⟨by decide, (c2_component_count_mismatch "1.2" "1.2.0" (by decide)).1⟩

/-- C8: comparing a version string against itself never reports a newer
firmware: when the components of `a` all parse as integers,
`has_newer_fw a a` returns false (and `a` always has at least one
component, since splitting on `.` yields at least one piece). -/
theorem c8_self_comparison_false (a : String) (is : List Int)
    (h : parseAll (verComponents a) = some is) :
    has_newer_fw a a = .res false := by
  have hc := cmp_digits_eq_spec _ _ _ _ h h
  rw [spec_is_newer_self] at hc
  simp [has_newer_fw, hc]

/-- Witness for C8 at `5.12.1`. -/
theorem c8_witness :
    parseAll (verComponents "5.12.1") = some [5, 12, 1] ∧
    has_newer_fw "5.12.1" "5.12.1" = .res false :=
  ⟨by decide, c8_self_comparison_false "5.12.1" [5, 12, 1] (by decide)⟩

theorem go_eq_spec_lookup (fam : List Char) :
    ∀ lines : List (List Char),
      (∀ line ∈ lines, wellFormedLine fam line = true) →
      get_bundled_fw_version_go fam lines =
        match spec_lookup fam lines with
        | some v => .found v
        | none => .notFound := by
  intro lines
  induction lines with
  | nil => intro _; simp [get_bundled_fw_version_go, spec_lookup]
  | cons line rest ih =>
    intro h
    have hline := h line (List.mem_cons_self line rest)
    have hrest : ∀ l ∈ rest, wellFormedLine fam l = true :=
      fun l hl => h l (List.mem_cons_of_mem _ hl)
    have htail := ih hrest
    cases hws : pyTokens line with
    | nil =>
      simp only [get_bundled_fw_version_go, spec_lookup, hws]
      exact htail
    | cons w0 ws =>
      by_cases h0 : w0 = defineTok
      · subst h0
        cases ws with
        | nil =>
          exfalso
          simp only [wellFormedLine, hws] at hline
          simp at hline
        | cons w1 ws2 =>
          by_cases h1 : pyIn fam w1 = true
          · cases ws2 with
            | nil =>
              exfalso
              simp only [wellFormedLine, hws] at hline
              simp [h1] at hline
            | cons w2 ws3 =>
              simp [get_bundled_fw_version_go, spec_lookup, hws, h1]
          · have h1' : pyIn fam w1 = false := by
              simpa using h1
            cases ws2 with
            | nil =>
              simp [get_bundled_fw_version_go, spec_lookup, hws, h1', htail]
            | cons w2 ws3 =>
              simp [get_bundled_fw_version_go, spec_lookup, hws, h1', htail]
      · cases ws with
        | nil =>
          simp [get_bundled_fw_version_go, spec_lookup, hws, h0, htail]
        | cons w1 ws2 =>
          cases ws2 with
          | nil =>
            simp [get_bundled_fw_version_go, spec_lookup, hws, h0, htail]
          | cons w2 ws3 =>
            simp [get_bundled_fw_version_go, spec_lookup, hws, h0, htail]

/-- Counterexample to C3: in a manifest whose first line is a bare
`#define` (which has no second token, so it is not a qualifying line) and
whose second line is the family's entry, the claim predicts the second
line's version, but the code raises an IndexError. -/
theorem c3_counterexample :
    get_bundled_fw_version "#define\n#define D4XX_FW_VERSION \"5.13.0\"" "D400" =
      .indexError ∧
    ManifestResult.indexError ≠ .found "5.13.0".toList :=
  ⟨by decide, by decide⟩

/-- C3 (amended): for every manifest content all of whose `#define`
lines carry a second token, and a third one whenever the second contains
the family prefix, `get_bundled_fw_version` returns the third token of
the first line whose first whitespace token is `#define` and whose second
token contains the prefix, with the token's first and last characters
(the quotes, for a quoted token) removed; lines not starting with
`#define` (and empty lines) are skipped even when they contain the
prefix and a quoted version; with no qualifying line the result is
`None`. -/
theorem c3_manifest_first_define_wins (content product_line : String)
    (h : ∀ line ∈ fileLines content,
        wellFormedLine (take2 product_line) line = true) :
    get_bundled_fw_version content product_line =
      match spec_lookup (take2 product_line) (fileLines content) with
      | some v => .found v
      | none => .notFound :=
  go_eq_spec_lookup (take2 product_line) (fileLines content) h

/-- Witness for C3 on a manifest with a non-`#define` line containing
the prefix and a quoted version, an entry for another macro, and two
entries for the family, of which the first wins. -/
theorem c3_witness :
    (∀ line ∈ fileLines manifest_demo,
        wellFormedLine (take2 "D400") line = true) ∧
    get_bundled_fw_version manifest_demo "D400" = .found "5.13.0".toList := by
  refine ⟨by decide, ?_⟩
  rw [c3_manifest_first_define_wins manifest_demo "D400" (by decide)]
  decide

/-- C9: the manifest scan is partial on malformed manifests: a line that
is a bare `#define`, and a line `#define D4XX_FOO` whose second token
contains the prefix but which has no third token, both make
`get_bundled_fw_version` raise an IndexError instead of skipping the
line or returning `None`. -/
theorem c9_malformed_manifest_index_error :
    get_bundled_fw_version "#define" "D400" = .indexError ∧
    get_bundled_fw_version "#define D4XX_FOO" "D400" = .indexError :=
  ⟨by decide, by decide⟩

/-- C10: the version token's first and last characters are stripped
unconditionally: on the matching line `#define D4XX_FW_VERSION 5.13.0`,
whose version token is not quote-enclosed, the result is `.13.` (the
token minus its first and last characters), not the token itself. -/
theorem c10_unconditional_quote_strip :
    get_bundled_fw_version "#define D4XX_FW_VERSION 5.13.0" "D400" =
      .found ".13.".toList ∧
    ".13.".toList ≠ "5.13.0".toList :=
  ⟨by decide, by decide⟩

/-- C4: with device version `5.12.1` and the manifest line
`#define D4XX_FW_VERSION "5.13.0"` for family prefix `D4`, the bundled
lookup yields `5.13.0`, the comparison decides an update is needed, the
computed image filename is exactly `D4XX_FW_Image-5.13.0.bin` (prefix ++
`XX_FW_Image-` ++ version ++ `.bin`), and a full run launches the
updater on that image. -/
theorem c4_end_to_end_update :
    get_bundled_fw_version "#define D4XX_FW_VERSION \"5.13.0\"" "D400" =
      .found "5.13.0".toList ∧
    has_newer_fw "5.12.1" "5.13.0" = .res true ∧
    image_name "D400" "5.13.0".toList = "D4XX_FW_Image-5.13.0.bin" ∧
    orchestrate env_update =
      .launched "tools/rs-fw-update.exe" "common/fw/D4XX_FW_Image-5.13.0.bin" :=
  ⟨by decide, by decide, by decide, by decide⟩

/-- C5: the process exits with code 0 when every precondition holds and
the device's version equals or exceeds the bundled one component-wise
(the spec-side comparison says the bundled version is not newer), and it
exits with code 1 on each enumerated fatal precondition failure: manifest
file absent, updater executable not found, device count different from
one, no bundled-version entry for the family, version component-count
mismatch, and firmware image not found. -/
theorem c5_exit_codes :
    (∀ (e : Env) (v : List Char) (cis bis : List Int),
        e.manifest_exists = true →
        (find_last e.files updater_mask_body).isSome = true →
        e.device_count = 1 →
        get_bundled_fw_version e.manifest_content e.product_line = .found v →
        v ≠ [] →
        (verComponents e.current_fw_version).length =
          (verComponents (String.mk v)).length →
        parseAll (verComponents e.current_fw_version) = some cis →
        parseAll (verComponents (String.mk v)) = some bis →
        spec_is_newer cis bis = false →
        orchestrate e = .exit0) ∧
    (∀ e : Env, e.manifest_exists = false → orchestrate e = .exit1) ∧
    (∀ e : Env, e.manifest_exists = true →
        find_last e.files updater_mask_body = none →
        orchestrate e = .exit1) ∧
    (∀ e : Env, e.manifest_exists = true →
        (find_last e.files updater_mask_body).isSome = true →
        e.device_count ≠ 1 →
        orchestrate e = .exit1) ∧
    (∀ e : Env, e.manifest_exists = true →
        (find_last e.files updater_mask_body).isSome = true →
        e.device_count = 1 →
        get_bundled_fw_version e.manifest_content e.product_line = .notFound →
        orchestrate e = .exit1) ∧
    (∀ (e : Env) (v : List Char), e.manifest_exists = true →
        (find_last e.files updater_mask_body).isSome = true →
        e.device_count = 1 →
        get_bundled_fw_version e.manifest_content e.product_line = .found v →
        v ≠ [] →
        (verComponents e.current_fw_version).length ≠
          (verComponents (String.mk v)).length →
        orchestrate e = .exit1) ∧
    (∀ (e : Env) (v : List Char) (cis bis : List Int),
        e.manifest_exists = true →
        (find_last e.files updater_mask_body).isSome = true →
        e.device_count = 1 →
        get_bundled_fw_version e.manifest_content e.product_line = .found v →
        v ≠ [] →
        (verComponents e.current_fw_version).length =
          (verComponents (String.mk v)).length →
        parseAll (verComponents e.current_fw_version) = some cis →
        parseAll (verComponents (String.mk v)) = some bis →
        spec_is_newer cis bis = true →
        find_last e.files (image_name e.product_line v) = none →
        orchestrate e = .exit1) := by
  refine ⟨?_, ?_, ?_, ?_, ?_, ?_, ?_⟩
  · intro e v cis bis hm hup hdc hb hv hlen hpc hpb hspec
    obtain ⟨exe, hexe⟩ := Option.isSome_iff_exists.mp hup
    have hcmp : has_newer_fw e.current_fw_version (String.mk v) = .res false := by
      have hc := cmp_digits_eq_spec _ _ _ _ hpc hpb
      rw [hspec] at hc
      simp [has_newer_fw, hlen, hc]
    simp [orchestrate, hm, hexe, hdc, hb, hv, hcmp]
  · intro e hm
    simp [orchestrate, hm]
  · intro e hm hup
    simp [orchestrate, hm, hup]
  · intro e hm hup hdc
    obtain ⟨exe, hexe⟩ := Option.isSome_iff_exists.mp hup
    simp [orchestrate, hm, hexe, hdc]
  · intro e hm hup hdc hb
    obtain ⟨exe, hexe⟩ := Option.isSome_iff_exists.mp hup
    simp [orchestrate, hm, hexe, hdc, hb]
  · intro e v hm hup hdc hb hv hlen
    obtain ⟨exe, hexe⟩ := Option.isSome_iff_exists.mp hup
    have hcmp : has_newer_fw e.current_fw_version (String.mk v) =
        .formatMismatch := by
      simp [has_newer_fw, hlen]
    simp [orchestrate, hm, hexe, hdc, hb, hv, hcmp]
  · intro e v cis bis hm hup hdc hb hv hlen hpc hpb hspec himg
    obtain ⟨exe, hexe⟩ := Option.isSome_iff_exists.mp hup
    have hcmp : has_newer_fw e.current_fw_version (String.mk v) = .res true := by
      have hc := cmp_digits_eq_spec _ _ _ _ hpc hpb
      rw [hspec] at hc
      simp [has_newer_fw, hlen, hc]
    simp [orchestrate, hm, hexe, hdc, hb, hv, hcmp, himg]

/-- Witness for C5: one concrete run per conjunct. -/
theorem c5_witness :
    orchestrate env_noop = .exit0 ∧
    orchestrate env_no_manifest = .exit1 ∧
    orchestrate env_no_updater = .exit1 ∧
    orchestrate env_two_devices = .exit1 ∧
    orchestrate env_no_entry = .exit1 ∧
    orchestrate env_mismatch = .exit1 ∧
    orchestrate env_no_image = .exit1 :=
  ⟨c5_exit_codes.1 env_noop "5.13.0".toList [5, 13, 0] [5, 13, 0] (by decide)
      (by decide) (by decide) (by decide) (by decide) (by decide) (by decide)
      (by decide) (by decide),
    c5_exit_codes.2.1 env_no_manifest (by decide),
    c5_exit_codes.2.2.1 env_no_updater (by decide) (by decide),
    c5_exit_codes.2.2.2.1 env_two_devices (by decide) (by decide) (by decide),
    c5_exit_codes.2.2.2.2.1 env_no_entry (by decide) (by decide) (by decide)
      (by decide),
    c5_exit_codes.2.2.2.2.2.1 env_mismatch "5.13.0".toList (by decide)
      (by decide) (by decide) (by decide) (by decide) (by decide),
    c5_exit_codes.2.2.2.2.2.2 env_no_image "5.13.0".toList [5, 12, 1] [5, 13, 0]
      (by decide) (by decide) (by decide) (by decide) (by decide) (by decide)
      (by decide) (by decide) (by decide) (by decide)⟩

theorem bodyMatch_refl : ∀ l : List Char, bodyMatch l l = true := by
  intro l
  induction l with
  | nil => rfl
  | cons c cs ih => simp [bodyMatch, charMatch, ih]

theorem bodyMatchDollar_iff :
    ∀ (body t : List Char), bodyMatchDollar body t = true ↔
      ∃ u nl, t = u ++ nl ∧ (nl = [] ∨ nl = ['\n']) ∧
        bodyMatch body u = true := by
  intro body
  induction body with
  | nil =>
    intro t
    simp only [bodyMatchDollar, Bool.or_eq_true, decide_eq_true_eq]
    constructor
    · rintro (rfl | rfl)
      · exact ⟨[], [], rfl, Or.inl rfl, rfl⟩
      · exact ⟨[], ['\n'], rfl, Or.inr rfl, rfl⟩
    · rintro ⟨u, nl, heq, hnl, hu⟩
      have hu' : u = [] := by
        cases u with
        | nil => rfl
        | cons a as => simp [bodyMatch] at hu
      subst hu'
      rcases hnl with rfl | rfl
      · left; simpa using heq
      · right; simpa using heq
  | cons p ps ih =>
    intro t
    cases t with
    | nil =>
      constructor
      · intro h
        simp [bodyMatchDollar] at h
      · rintro ⟨u, nl, heq, hnl, hu⟩
        cases u with
        | nil => simp [bodyMatch] at hu
        | cons a as => simp at heq
    | cons c cs =>
      constructor
      · intro h
        simp only [bodyMatchDollar, Bool.and_eq_true] at h
        obtain ⟨hpc, hrest⟩ := h
        obtain ⟨u, nl, rfl, hnl, hu⟩ := (ih cs).mp hrest
        exact ⟨c :: u, nl, by simp, hnl, by simp [bodyMatch, hpc, hu]⟩
      · rintro ⟨u, nl, heq, hnl, hu⟩
        cases u with
        | nil => simp [bodyMatch] at hu
        | cons a as =>
          simp only [List.cons_append, List.cons.injEq] at heq
          obtain ⟨rfl, rfl⟩ := heq
          simp only [bodyMatch, Bool.and_eq_true] at hu
          obtain ⟨hpc, hu'⟩ := hu
          simp only [bodyMatchDollar, Bool.and_eq_true]
          exact ⟨hpc, (ih _).mpr ⟨as, nl, rfl, hnl, hu'⟩⟩

theorem maskSearchAux_iff (body : List Char) :
    ∀ s : List Char, maskSearchAux body s = true ↔
      ∃ p t, s = p ++ '/' :: t ∧ bodyMatchDollar body t = true := by
  intro s
  induction s with
  | nil =>
    constructor
    · intro h
      simp [maskSearchAux] at h
    · rintro ⟨p, t, hpt, -⟩
      exact absurd hpt (by simp)
  | cons c cs ih =>
    constructor
    · intro h
      simp only [maskSearchAux, Bool.or_eq_true, Bool.and_eq_true,
        decide_eq_true_eq] at h
      rcases h with ⟨hc, hb⟩ | h
      · exact ⟨[], cs, by simp [hc], hb⟩
      · obtain ⟨p, t, rfl, hb⟩ := ih.mp h
        exact ⟨c :: p, t, by simp, hb⟩
    · rintro ⟨p, t, hpt, hb⟩
      cases p with
      | nil =>
        simp only [List.nil_append, List.cons.injEq] at hpt
        rcases hpt with ⟨rfl, rfl⟩
        simp [maskSearchAux, hb]
      | cons q qs =>
        simp only [List.cons_append, List.cons.injEq] at hpt
        rcases hpt with ⟨rfl, rfl⟩
        have hrec := (ih).mpr ⟨qs, t, rfl, hb⟩
        simp [maskSearchAux, hrec]

theorem maskSearch_iff (body s : List Char) :
    maskSearch body s = true ↔ MatchesAt body s := by
  constructor
  · intro h
    simp only [maskSearch, Bool.or_eq_true] at h
    rcases h with hb | ha
    · obtain ⟨u, nl, rfl, hnl, hu⟩ := (bodyMatchDollar_iff body s).mp hb
      exact ⟨[], u, nl, by simp, Or.inl rfl, hnl, hu⟩
    · obtain ⟨p, t, rfl, hb⟩ := (maskSearchAux_iff body _).mp ha
      obtain ⟨u, nl, rfl, hnl, hu⟩ := (bodyMatchDollar_iff body _).mp hb
      exact ⟨p ++ ['/'], u, nl, by simp, Or.inr ⟨p, rfl⟩, hnl, hu⟩
  · rintro ⟨pre, t, nl, hs, hpre, hnl, hb⟩
    subst hs
    have hd : bodyMatchDollar body (t ++ nl) = true :=
      (bodyMatchDollar_iff body _).mpr ⟨t, nl, rfl, hnl, hb⟩
    rcases hpre with rfl | ⟨q, rfl⟩
    · simp [maskSearch, hd]
    · have ha := (maskSearchAux_iff body (q ++ '/' :: (t ++ nl))).mpr
        ⟨q, t ++ nl, rfl, hd⟩
      simp only [maskSearch, Bool.or_eq_true]
      right
      simpa [List.append_assoc] using ha

theorem dropWhile_head_not (p : Char → Bool) :
    ∀ (l : List Char) (a : Char) (t : List Char),
      l.dropWhile p = a :: t → p a = false := by
  intro l
  induction l with
  | nil =>
    intro a t h
    simp [List.dropWhile] at h
  | cons x xs ih =>
    intro a t h
    rw [List.dropWhile_cons] at h
    by_cases hx : p x = true
    · rw [if_pos hx] at h
      exact ih a t h
    · rw [if_neg hx] at h
      injection h with h1 _h2
      subst h1
      simpa using hx

theorem rev_takeWhile_decomp (p : Char → Bool) (l : List Char)
    (hslash : ∀ a, p a = false → a = '/') :
    ∃ pre, l = pre ++ (l.reverse.takeWhile p).reverse ∧
      (pre = [] ∨ ∃ q, pre = q ++ ['/']) := by
  refine ⟨(l.reverse.dropWhile p).reverse, ?_, ?_⟩
  · calc l = l.reverse.reverse := (List.reverse_reverse _).symm
      _ = (l.reverse.takeWhile p ++ l.reverse.dropWhile p).reverse := by
          rw [List.takeWhile_append_dropWhile]
      _ = (l.reverse.dropWhile p).reverse ++ (l.reverse.takeWhile p).reverse := by
          rw [List.reverse_append]
  · cases hd : l.reverse.dropWhile p with
    | nil => exact Or.inl rfl
    | cons a t =>
      have ha : a = '/' := hslash a (dropWhile_head_not p _ a t hd)
      refine Or.inr ⟨t.reverse, ?_⟩
      rw [ha]
      simp

/-- Counterexample to C6: the regex dot in the mask body is a wildcard,
so the path `foo/rs-fw-updatexexe` matches the updater pattern although
its final component differs from the literal `rs-fw-update.exe`. -/
theorem c6_counterexample :
    maskSearch updater_mask_body.toList "foo/rs-fw-updatexexe".toList = true ∧
    lastComponent "foo/rs-fw-updatexexe" ≠ updater_mask_body.toList :=
  ⟨by decide, by decide⟩

/-- C6 (amended): a relative path matches the mask `(^|/)body$` exactly
when some suffix of the path starting at the beginning of the string or
immediately after a `/` consists of a part matched by the body followed
by nothing or by a single trailing newline (tolerated by the regex `$`),
where the body's `.` characters match any character except a newline and
every other character matches only itself; a path whose final component
equals the literal updater name always matches, and in particular
`foo/rs-fw-update.exe` matches while `foo/not-rs-fw-update.exe` does not —
but a final component merely wildcard-equal to the literal, such as
`rs-fw-updatexexe`, also matches, as does a path carrying a trailing
newline after the literal name. -/
theorem c6_anchored_wildcard_match :
    (∀ body s : List Char, maskSearch body s = true ↔ MatchesAt body s) ∧
    (∀ s : String, lastComponent s = updater_mask_body.toList →
        maskSearch updater_mask_body.toList s.toList = true) ∧
    maskSearch updater_mask_body.toList "foo/rs-fw-update.exe".toList = true ∧
    maskSearch updater_mask_body.toList "foo/not-rs-fw-update.exe".toList =
      false ∧
    maskSearch updater_mask_body.toList "foo/rs-fw-update.exe\n".toList =
      true := by
  refine ⟨maskSearch_iff, ?_, by decide, by decide, by decide⟩
  intro s hlast
  rw [maskSearch_iff]
  obtain ⟨pre, hsplit, hpre⟩ :=
    rev_takeWhile_decomp (fun c => decide (c ≠ '/')) s.toList
      (by intro a ha; simpa using ha)
  refine ⟨pre, lastComponent s, [], ?_, hpre, Or.inl rfl, ?_⟩
  · rw [List.append_nil]
    exact hsplit
  · rw [hlast]
    exact bodyMatch_refl _

/-- Witness for C6 at a path whose final component is the literal updater
name. -/
theorem c6_witness :
    lastComponent "a/b/rs-fw-update.exe" = updater_mask_body.toList ∧
    maskSearch updater_mask_body.toList "a/b/rs-fw-update.exe".toList = true :=
  ⟨by decide, c6_anchored_wildcard_match.2.1 "a/b/rs-fw-update.exe" (by decide)⟩

theorem getLast?_cons_or {α : Type} (x : α) (t : List α) :
    (x :: t).getLast? = (t.getLast?).or (some x) := by
  cases t with
  | nil => rfl
  | cons y ys =>
    rw [List.getLast?_cons_cons]
    cases h : (y :: ys).getLast? with
    | none => exact absurd (List.getLast?_eq_none_iff.mp h) (by simp)
    | some z => rw [Option.or_some]

theorem foldl_keep_last {α : Type} (p : α → Bool) :
    ∀ (l : List α) (acc : Option α),
      l.foldl (fun a x => if p x then some x else a) acc =
        ((l.filter p).getLast?).or acc := by
  intro l
  induction l with
  | nil => intro acc; simp
  | cons x xs ih =>
    intro acc
    rw [List.foldl_cons, ih, List.filter_cons]
    by_cases hx : p x = true
    · rw [if_pos hx, if_pos hx, getLast?_cons_or, Option.or_assoc,
        Option.or_some]
    · rw [if_neg hx, if_neg hx]

/-- C7: when several paths match a mask, the loop keeps the last match in
traversal order: `find_last` is exactly the last element of the matches
that `find` yields, for any mask body and hence for both the
updater-executable search and the firmware-image search, as the two
concrete two-match runs illustrate. -/
theorem c7_last_match_wins :
    (∀ (files : List String) (body : String),
        find_last files body = (find files body).getLast?) ∧
    find_last ["a/rs-fw-update.exe", "b/rs-fw-update.exe"] updater_mask_body =
      some "b/rs-fw-update.exe" ∧
    find_last
        ["x/D4XX_FW_Image-5.13.0.bin", "y/D4XX_FW_Image-5.13.0.bin"]
        (image_name "D400" "5.13.0".toList) =
      some "y/D4XX_FW_Image-5.13.0.bin" := by
  refine ⟨?_, by decide, by decide⟩
  intro files body
  have h := foldl_keep_last (fun f : String => maskSearch body.toList f.toList)
    files none
  rw [Option.or_none] at h
  exact h

end FwUpdater
